import Mathlib

/-!
Verification of the lease/locking core of the `@avow/locker` library
(`src/lease.ts`, `src/locker.ts`, `src/errors.ts`).

The TypeScript code is shallowly embedded:

* DynamoDB holds at most one record per lease key; the slice of the table
  relevant to one `Lease` handle is modelled as `Option LeaseRecord`.
  DynamoDB retains expired rows until its TTL reaper deletes them, so an
  expired row is still `some r` here until reaped.
* `UpdateCommand` with condition `version = :oldVersion OR
  attribute_not_exists(version)` and `DeleteCommand` with condition
  `version = :version` are modelled by `condUpdateOk` / `condDeleteOk`.
* `Date.now()` is an explicit `nowMs : Nat` argument (epoch milliseconds);
  the record's TTL attribute is stored in epoch seconds as a rational,
  mirroring the JavaScript float division by 1000.
* `nanoid()` and transient store faults are oracle inputs threaded through
  an `AttemptEnv`; the store contents seen by the consistent read and by
  the subsequent conditional write are separate oracle fields, so that
  expiry or interference between the read, the backoff sleep and the write
  is expressible.
* Network/visible actions are recorded in an `Effect` trace so that claims
  about "no store interaction" or action ordering are stateable.
-/

/-- Error taxonomy of the library (`src/errors.ts` defines `LockerError`
and its only concrete subclass `LeaseNotGrantedError`), extended with the
two kinds of foreign exceptions that flow through the core: a non-conditional
store failure rethrown by the catch blocks, and an error thrown by a user
callback inside `withLeases`. -/
inductive Thrown where
  | leaseNotGranted (msg : String)
  | storeFailure
  | callbackError
deriving Repr, DecidableEq

/-- The record persisted in the store for one lease key
(attributes written by `upsertLease`, `src/lease.ts` lines 152-169).
`expiresAt` is the TTL attribute, in epoch seconds. -/
structure LeaseRecord where
  ownerId : String
  durationMs : Nat
  version : String
  expiresAt : ℚ
deriving Repr, DecidableEq

/-- The `LeaseItem` view returned by `fetchLease` (`src/lease.ts` lines 23-28). -/
structure LeaseItem where
  leaseId : String
  ownerId : String
  durationMs : Nat
  version : String
deriving Repr, DecidableEq

/-- Default retry count (`src/lease.ts` line 11). -/
def DEFAULT_RETRY_COUNT : Nat := 5

/-- Mutable state of a `Lease` handle (`src/lease.ts` lines 30-41).
`heartbeatTimer` models whether the `this.heartbeatTimer` field holds a
timer object; `timerPending` models whether the event loop actually has a
pending timeout for this handle (the field keeps pointing at a fired timer
until reassigned, so the two can differ). -/
structure Lease where
  leaseId : String
  leaseDurationMs : Nat
  heartbeatMs : Option Nat
  maxRetryCount : Nat
  isAcquired : Bool
  version : Option String
  heartbeatTimer : Bool
  timerPending : Bool
deriving Repr, DecidableEq

/-- Constructor (`src/lease.ts` lines 43-63): `maxRetryCount ?? DEFAULT_RETRY_COUNT`,
fresh handle starts not acquired, with no version and no timer. -/
def Lease.new (leaseId : String) (leaseDurationMs : Nat) (heartbeatMs : Option Nat)
    (maxRetryCount : Option Nat) : Lease :=
  { leaseId := leaseId
    leaseDurationMs := leaseDurationMs
    heartbeatMs := heartbeatMs
    maxRetryCount := maxRetryCount.getD DEFAULT_RETRY_COUNT
    isAcquired := false
    version := none
    heartbeatTimer := false
    timerPending := false }

/-- Observable actions of a handle, in program order. `localClear` marks the
local-state reset at the top of `release` (lines 92-94); the other actions
are the store calls (`GetCommand`, `UpdateCommand`, `DeleteCommand`) and the
backoff `delay`. -/
inductive Effect where
  | localClear
  | read
  | sleep (ms : Nat)
  | condWrite (oldVersion : Option String) (newVersion : String)
  | condDelete (version : String)
deriving Repr, DecidableEq

/-- Success condition of the `UpdateCommand` in `upsertLease` (line 157):
`version = :oldVersion OR attribute_not_exists(version)` when an old version
is supplied, plain `attribute_not_exists(version)` otherwise. Every record
written by this library carries a `version` attribute, so on an existing row
`attribute_not_exists(version)` is false. -/
def condUpdateOk (store : Option LeaseRecord) (oldVersion : Option String) : Bool :=
  match store, oldVersion with
  | none, _ => true
  | some r, some v => r.version == v
  | some _, none => false

/-- Success condition of the `DeleteCommand` in `release` (line 102):
`version = :version`; deleting an absent row under this condition raises
`ConditionalCheckFailedException`. -/
def condDeleteOk (store : Option LeaseRecord) (v : String) : Bool :=
  match store with
  | some r => r.version == v
  | none => false

/-- `fetchLease` (`src/lease.ts` lines 188-205): consistent read; the item is
surfaced only when its TTL attribute is strictly in the future
(`Item[ttlKey] > Date.now() / 1000`), otherwise the call resolves with
`undefined` even though the physical row may still exist. -/
def Lease.fetchLease (l : Lease) (store : Option LeaseRecord) (nowMs : Nat) :
    Option LeaseItem :=
  match store with
  | some item =>
      if item.expiresAt > (nowMs : ℚ) / 1000 then
        some { leaseId := l.leaseId
               ownerId := item.ownerId
               durationMs := item.durationMs
               version := item.version }
      else
        none
  | none => none

/-- Result of one `upsertLease` call: updated handle, store contents after
the call, the conditional-write action issued, and the JS-level outcome
(`Except.error ()` models a non-`ConditionalCheckFailedException` store
error being rethrown). -/
structure UpsertResult where
  lease : Lease
  store : Option LeaseRecord
  effect : Effect
  result : Except Unit Bool
deriving Repr

/-- `upsertLease` (`src/lease.ts` lines 147-186). `newVersion` is the
`nanoid()` oracle; `oldVersion := existingVersion ?? this.version`; on a
successful conditional write the handle is marked acquired with the new
version and the record is written with TTL
`(Date.now() + leaseDurationMs * 3) / 1000`; on any failure the handle is
cleared, and only `ConditionalCheckFailedException` is swallowed into a
`false` return. `storeFault` injects a non-conditional store failure. -/
def Lease.upsertLease (l : Lease) (store : Option LeaseRecord) (nowMs : Nat)
    (ownerId : String) (newVersion : String) (existingVersion : Option String)
    (storeFault : Bool) : UpsertResult :=
  let oldVersion := match existingVersion with
    | some v => some v
    | none => l.version
  let fx := Effect.condWrite oldVersion newVersion
  if storeFault then
    { lease := { l with isAcquired := false, version := none }
      store := store
      effect := fx
      result := Except.error () }
  else if condUpdateOk store oldVersion then
    { lease := { l with isAcquired := true, version := some newVersion }
      store := some { ownerId := ownerId
                      durationMs := l.leaseDurationMs
                      version := newVersion
                      expiresAt := ((nowMs : ℚ) + (l.leaseDurationMs : ℚ) * 3) / 1000 }
      effect := fx
      result := Except.ok true }
  else
    { lease := { l with isAcquired := false, version := none }
      store := store
      effect := fx
      result := Except.ok false }

/-- `scheduleHeartbeat` (`src/lease.ts` lines 120-131): arms a timer only
when `heartbeatMs` is configured. -/
def Lease.scheduleHeartbeat (l : Lease) : Lease :=
  match l.heartbeatMs with
  | some _ => { l with heartbeatTimer := true, timerPending := true }
  | none => l

/-- `cancelHeartbeat` (`src/lease.ts` lines 133-138): clears the timer field
and cancels the pending timeout, but only when the field is set. -/
def Lease.cancelHeartbeat (l : Lease) : Lease :=
  if l.heartbeatTimer then { l with heartbeatTimer := false, timerPending := false }
  else l

/-- Oracle for one iteration of the `acquire` retry loop: store contents and
clock at the consistent read, store contents and clock at the conditional
write (the record can expire or be replaced in between, notably during the
`delay(durationMs)` backoff), the `nanoid()` drawn for this attempt, and
whether the store call fails with a non-conditional error. -/
structure AttemptEnv where
  fetchStore : Option LeaseRecord
  fetchNowMs : Nat
  writeStore : Option LeaseRecord
  writeNowMs : Nat
  newVersion : String
  storeFault : Bool
deriving Repr

/-- Outcome of a full `acquire` call: final handle, the action trace, the
record written by the winning attempt when there is one, and the JS-level
outcome. -/
structure AcquireResult where
  lease : Lease
  effects : List Effect
  written : Option LeaseRecord
  result : Except Thrown Unit
deriving Repr

/-- The message of the error thrown when the retry budget is exhausted
(`src/lease.ts` line 88). -/
def exhaustedMsg (l : Lease) : String :=
  l.leaseId ++ " could not be acquired after " ++ toString l.maxRetryCount ++ " attempts"

/-- Body of the `for` loop in `acquire` (`src/lease.ts` lines 73-88),
recursing on the number of remaining attempts, with `i` the index of the
current attempt. Each iteration reads the record, sleeps `durationMs` of the
fetched item when one is live, then attempts the conditional write passing
`lockItem?.version` as the steal version; success schedules the heartbeat
and returns, a conflict moves to the next attempt, any other store error
propagates. Exhaustion throws `LeaseNotGrantedError`. -/
def Lease.acquireAttempts (ownerId : String) (envs : Nat → AttemptEnv) :
    Nat → Nat → Lease → AcquireResult
  | 0, _, l =>
      { lease := l
        effects := []
        written := none
        result := Except.error (Thrown.leaseNotGranted (exhaustedMsg l)) }
  | n + 1, i, l =>
      let env := envs i
      let item := l.fetchLease env.fetchStore env.fetchNowMs
      let waitFx : List Effect := match item with
        | some it => [Effect.sleep it.durationMs]
        | none => []
      let u := l.upsertLease env.writeStore env.writeNowMs ownerId env.newVersion
        (item.map fun it => it.version) env.storeFault
      let fx := Effect.read :: waitFx ++ [u.effect]
      match u.result with
      | Except.ok true =>
          { lease := u.lease.scheduleHeartbeat
            effects := fx
            written := u.store
            result := Except.ok () }
      | Except.ok false =>
          let rest := Lease.acquireAttempts ownerId envs n (i + 1) u.lease
          { rest with effects := fx ++ rest.effects }
      | Except.error _ =>
          { lease := u.lease
            effects := fx
            written := none
            result := Except.error Thrown.storeFailure }

/-- `acquire` (`src/lease.ts` lines 68-89): throws `LeaseNotGrantedError`
immediately when the handle already believes it is acquired, otherwise runs
up to `maxRetryCount` attempts. -/
def Lease.acquire (l : Lease) (ownerId : String) (envs : Nat → AttemptEnv) :
    AcquireResult :=
  if l.isAcquired then
    { lease := l
      effects := []
      written := none
      result := Except.error (Thrown.leaseNotGranted (l.leaseId ++ " already acquired")) }
  else
    Lease.acquireAttempts ownerId envs l.maxRetryCount 0 l

/-- Outcome of a `release` call. -/
structure ReleaseResult where
  lease : Lease
  store : Option LeaseRecord
  effects : List Effect
  result : Except Thrown Unit
deriving Repr

/-- `release` (`src/lease.ts` lines 91-118): clears `isAcquired` and cancels
the heartbeat before any store call; when a version is held it issues a
conditional delete on that version; a `ConditionalCheckFailedException` is
swallowed (leaving `this.version` untouched — only the success path clears
it, line 109); any other store failure is rethrown with the local state
already cleared. `deleteFault` injects a non-conditional store failure. -/
def Lease.release (l : Lease) (store : Option LeaseRecord) (deleteFault : Bool) :
    ReleaseResult :=
  let l1 := Lease.cancelHeartbeat { l with isAcquired := false }
  match l1.version with
  | none =>
      { lease := l1
        store := store
        effects := [Effect.localClear]
        result := Except.ok () }
  | some v =>
      if deleteFault then
        { lease := l1
          store := store
          effects := [Effect.localClear, Effect.condDelete v]
          result := Except.error Thrown.storeFailure }
      else if condDeleteOk store v then
        { lease := { l1 with version := none }
          store := none
          effects := [Effect.localClear, Effect.condDelete v]
          result := Except.ok () }
      else
        { lease := l1
          store := store
          effects := [Effect.localClear, Effect.condDelete v]
          result := Except.ok () }

/-- Outcome of one heartbeat-timer firing. -/
structure HeartbeatResult where
  lease : Lease
  store : Option LeaseRecord
  effects : List Effect
  result : Except Thrown Unit
deriving Repr

/-- One firing of the renewal timer (the callback in `scheduleHeartbeat`,
`src/lease.ts` lines 122-129): the pending timeout is consumed, then
`upsertLease()` runs with no steal version (so the condition uses the
handle's own current version); success reschedules, failure leaves the timer
unscheduled and sets `isAcquired = false`; a non-conditional store error
escapes the callback (an unhandled rejection — nothing is rescheduled). -/
def Lease.heartbeatFire (l : Lease) (store : Option LeaseRecord) (nowMs : Nat)
    (ownerId : String) (newVersion : String) (storeFault : Bool) : HeartbeatResult :=
  let l0 := { l with timerPending := false }
  let u := l0.upsertLease store nowMs ownerId newVersion none storeFault
  match u.result with
  | Except.ok true =>
      { lease := u.lease.scheduleHeartbeat
        store := u.store
        effects := [u.effect]
        result := Except.ok () }
  | Except.ok false =>
      { lease := { u.lease with isAcquired := false }
        store := u.store
        effects := [u.effect]
        result := Except.ok () }
  | Except.error _ =>
      { lease := u.lease
        store := u.store
        effects := [u.effect]
        result := Except.error Thrown.storeFailure }

/-- `Locker.acquire` (`src/locker.ts` lines 57-61): constructs a fresh
`Lease` for the key and runs its `acquire`; on failure the error propagates
while the (never-returned) handle keeps whatever state `acquire` left. -/
def Locker.acquireOne (ownerId : String) (leaseDurationMs : Nat)
    (heartbeatMs : Option Nat) (maxRetryCount : Option Nat)
    (envs : Nat → AttemptEnv) (key : String) : AcquireResult :=
  (Lease.new key leaseDurationMs heartbeatMs maxRetryCount).acquire ownerId envs

/-- Outcome of `withLeases`: the per-key handles as the caller can observe
them afterwards, the per-key store contents afterwards, whether the callback
ran, and the JS-level outcome. -/
structure GroupResult where
  leases : List Lease
  stores : List (Option LeaseRecord)
  callbackInvoked : Bool
  result : Except Thrown Unit
deriving Repr

/-- `Locker.withLeases` (`src/locker.ts` lines 72-79):
`Promise.all(keys.map(key => acquire(key)))` — every per-key acquisition
runs to completion (the promises are created eagerly), and the aggregate
rejects with a failed acquisition's error when one exists. Only when the
aggregate fulfils does control enter the `try`/`finally`, so the releases in
the `finally` run only in that case; the callback may throw
(`callbackThrows`), in which case the releases still run and the callback's
error then propagates. On aggregate rejection nothing further happens: no
release is issued for the keys whose acquisition succeeded. Keys being
distinct, each key's store cell evolves independently; at release time each
key's cell holds the record its own winning attempt wrote (interference
before the release would only make the conditional delete a swallowed
no-op). -/
def Locker.withLeases (ownerId : String) (leaseDurationMs : Nat)
    (heartbeatMs : Option Nat) (maxRetryCount : Option Nat)
    (envs : String → Nat → AttemptEnv) (callbackThrows : Bool)
    (keys : List String) : GroupResult :=
  let results := keys.map fun key =>
    Locker.acquireOne ownerId leaseDurationMs heartbeatMs maxRetryCount (envs key) key
  let firstErr := results.findSome? fun r =>
    match r.result with
    | Except.error e => some e
    | Except.ok _ => none
  match firstErr with
  | some e =>
      { leases := results.map fun r => r.lease
        stores := results.map fun r => r.written
        callbackInvoked := false
        result := Except.error e }
  | none =>
      let released := results.map fun r => r.lease.release r.written false
      { leases := released.map fun r => r.lease
        stores := released.map fun r => r.store
        callbackInvoked := true
        result := if callbackThrows then Except.error Thrown.callbackError else Except.ok () }

/-- Version attribute that the consistent read surfaces: the record's version
when the row exists and is unexpired, nothing otherwise. -/
def fetchedVersion (store : Option LeaseRecord) (nowMs : Nat) : Option String :=
  match store with
  | some item => if item.expiresAt > (nowMs : ℚ) / 1000 then some item.version else none
  | none => none

/-- Whether an action is a conditional write. -/
def isCondWrite : Effect → Bool
  | Effect.condWrite _ _ => true
  | _ => false

/-- Number of conditional-write attempts in a trace. -/
def writeCount (fx : List Effect) : Nat :=
  fx.countP isCondWrite

/-- The attempt's conditional write loses: no injected fault, and the store
contents at write time fail the `version = fetched OR attribute_not_exists`
condition built from the consistent read (for a handle holding no version of
its own). -/
def attemptConflict (env : AttemptEnv) : Prop :=
  env.storeFault = false
    ∧ condUpdateOk env.writeStore (fetchedVersion env.fetchStore env.fetchNowMs) = false

/-- The attempt's conditional write wins. -/
def attemptSucceeds (env : AttemptEnv) : Prop :=
  env.storeFault = false
    ∧ condUpdateOk env.writeStore (fetchedVersion env.fetchStore env.fetchNowMs) = true

lemma fetchLease_version (l : Lease) (store : Option LeaseRecord) (nowMs : Nat) :
    (l.fetchLease store nowMs).map (fun it => it.version) = fetchedVersion store nowMs := by
  cases store with
  | none => rfl
  | some item =>
      simp only [Lease.fetchLease, fetchedVersion]
      split <;> rfl

/-- A benign environment: empty store, no fault. -/
def envA : AttemptEnv :=
  { fetchStore := none
    fetchNowMs := 0
    writeStore := none
    writeNowMs := 0
    newVersion := "nv"
    storeFault := false }

/-- A handle that already believes it holds its lease. -/
def heldLease : Lease :=
  { leaseId := "job-1"
    leaseDurationMs := 500
    heartbeatMs := none
    maxRetryCount := 5
    isAcquired := true
    version := some "v1"
    heartbeatTimer := false
    timerPending := false }

/-- C3 (counterexample). The claim says re-entrant `acquire` fails with a
distinct `AlreadyAcquired` error kind, different from `LeaseNotGranted`. On
the code, the error thrown for a handle with `isAcquired = true` is a
`LeaseNotGrantedError` — the very same error class used for retry
exhaustion — carrying the message `"<id> already acquired"`. -/
theorem acquire_on_held_handle_throws_LeaseNotGranted :
    (heldLease.acquire "owner-1" fun _ => envA).result
      = Except.error (Thrown.leaseNotGranted "job-1 already acquired") := by
  rfl

/-- C3 (amended). Calling `acquire` on a handle whose `isAcquired` flag is
already true fails immediately with a `LeaseNotGrantedError` (the only
concrete error class of the library, also used for retry exhaustion) whose
message is `"<id> already acquired"`, with no store interaction, no retry,
and the handle left unchanged. -/
theorem acquire_already_acquired (l : Lease) (ownerId : String)
    (envs : Nat → AttemptEnv) (h : l.isAcquired = true) :
    (l.acquire ownerId envs).result
        = Except.error (Thrown.leaseNotGranted (l.leaseId ++ " already acquired"))
      ∧ (l.acquire ownerId envs).effects = []
      ∧ (l.acquire ownerId envs).lease = l := by
  simp [Lease.acquire, h]

/-- C3 (witness). -/
theorem acquire_already_acquired_witness :
    heldLease.isAcquired = true
      ∧ ((heldLease.acquire "owner-1" fun _ => envA).result
          = Except.error (Thrown.leaseNotGranted (heldLease.leaseId ++ " already acquired"))
        ∧ (heldLease.acquire "owner-1" fun _ => envA).effects = []
        ∧ (heldLease.acquire "owner-1" fun _ => envA).lease = heldLease) :=
  ⟨rfl, acquire_already_acquired heldLease "owner-1" (fun _ => envA) rfl⟩

/-- C10. A `Lease` constructed with `maxRetryCount = 0` (the `??` default
applies only to `undefined`, so an explicit `0` is kept) throws
`LeaseNotGrantedError` reporting 0 attempts straight away, with an empty
action trace — no store read and no conditional write — whatever the
attempt environments would have offered (in particular even when the store
is empty and a write would succeed). -/
theorem acquire_zero_budget (id : String) (d : Nat) (hb : Option Nat)
    (ownerId : String) (envs : Nat → AttemptEnv) :
    ((Lease.new id d hb (some 0)).acquire ownerId envs).result
        = Except.error
            (Thrown.leaseNotGranted (id ++ " could not be acquired after " ++ toString 0 ++ " attempts"))
      ∧ ((Lease.new id d hb (some 0)).acquire ownerId envs).effects = [] := by
  exact ⟨rfl, rfl⟩

lemma cancelHeartbeat_version (l : Lease) :
    (Lease.cancelHeartbeat l).version = l.version := by
  unfold Lease.cancelHeartbeat
  split <;> rfl

lemma cancelHeartbeat_fields (l : Lease) :
    (Lease.cancelHeartbeat l).heartbeatTimer = false
      ∨ Lease.cancelHeartbeat l = l := by
  unfold Lease.cancelHeartbeat
  split
  · exact Or.inl rfl
  · exact Or.inr rfl

/-- C6. `release` clears local state first and classifies store failures:
in every outcome (no version held, successful delete, swallowed conflict,
propagated failure) the returned handle has `isAcquired = false` and no
armed timer, and the trace starts with the local clear, any conditional
delete coming after it; when a version is held, a fault-free conflicting
delete is swallowed as a no-op leaving the store untouched, while an
injected non-conditional failure propagates as an error — with the local
state already cleared. -/
theorem release_clears_first_and_classifies (l : Lease) (store : Option LeaseRecord)
    (fault : Bool) (hwf : l.heartbeatTimer = false → l.timerPending = false) :
    ((l.release store fault).lease.isAcquired = false
      ∧ (l.release store fault).lease.heartbeatTimer = false
      ∧ (l.release store fault).lease.timerPending = false
      ∧ ∃ rest, (l.release store fault).effects = Effect.localClear :: rest)
    ∧ (∀ v, l.version = some v →
        (l.release store fault).effects = [Effect.localClear, Effect.condDelete v])
    ∧ (∀ v, l.version = some v → fault = false → condDeleteOk store v = false →
        (l.release store fault).result = Except.ok ()
          ∧ (l.release store fault).store = store)
    ∧ (l.version.isSome → fault = true →
        (l.release store fault).result = Except.error Thrown.storeFailure) := by
  cases l with
  | mk lid d hb mrc acq ver ht tp =>
      cases ht with
      | false =>
          have htp : tp = false := hwf rfl
          subst htp
          cases ver with
          | none =>
              refine ⟨⟨rfl, rfl, rfl, ⟨[], rfl⟩⟩, ?_, ?_, ?_⟩ <;> intro v h <;> simp_all
          | some v0 =>
              cases fault with
              | false =>
                  by_cases hd : condDeleteOk store v0 = true <;>
                    simp [Lease.release, Lease.cancelHeartbeat, hd]
              | true =>
                  simp [Lease.release, Lease.cancelHeartbeat]
      | true =>
          cases ver with
          | none =>
              refine ⟨⟨rfl, rfl, rfl, ⟨[], rfl⟩⟩, ?_, ?_, ?_⟩ <;> intro v h <;> simp_all
          | some v0 =>
              cases fault with
              | false =>
                  by_cases hd : condDeleteOk store v0 = true <;>
                    simp [Lease.release, Lease.cancelHeartbeat, hd]
              | true =>
                  simp [Lease.release, Lease.cancelHeartbeat]

/-- A foreign record, as left by another process that stole the key:
its version differs from the one our handle last wrote. -/
def otherRec : LeaseRecord :=
  { ownerId := "other-owner", durationMs := 100, version := "v2", expiresAt := 99 }

/-- A held handle with a configured heartbeat and an armed renewal timer. -/
def heldLeaseHB : Lease :=
  { heldLease with heartbeatMs := some 100, heartbeatTimer := true, timerPending := true }

/-- C6 (witness). -/
theorem release_clears_first_and_classifies_witness :
    (heldLeaseHB.release (some otherRec) false).lease.isAcquired = false
      ∧ (heldLeaseHB.release (some otherRec) false).lease.timerPending = false
      ∧ (heldLeaseHB.release (some otherRec) false).effects
          = [Effect.localClear, Effect.condDelete "v1"]
      ∧ (heldLeaseHB.release (some otherRec) false).result = Except.ok ()
      ∧ (heldLeaseHB.release (some otherRec) false).store = some otherRec := by
  have h := release_clears_first_and_classifies heldLeaseHB (some otherRec) false
    (by decide)
  exact ⟨h.1.1, h.1.2.2.1, h.2.1 "v1" rfl,
    (h.2.2.1 "v1" rfl rfl (by decide)).1, (h.2.2.1 "v1" rfl rfl (by decide)).2⟩

/-- C7. Fault-free `release` is idempotent: a second `release` right after a
first one leaves the handle, the stored record and the outcome unchanged
(no error); and a `release` on a handle holding no version issues no store
call at all — its trace is just the local clear. -/
theorem release_idempotent (l : Lease) (store : Option LeaseRecord) :
    ((l.release store false).lease.release (l.release store false).store false).lease
        = (l.release store false).lease
      ∧ ((l.release store false).lease.release (l.release store false).store false).store
          = (l.release store false).store
      ∧ ((l.release store false).lease.release (l.release store false).store false).result
          = Except.ok ()
      ∧ (l.version = none →
          (l.release store false).effects = [Effect.localClear]
            ∧ (l.release store false).store = store) := by
  cases l with
  | mk lid d hb mrc acq ver ht tp =>
      cases ver with
      | none =>
          cases ht <;> simp [Lease.release, Lease.cancelHeartbeat]
      | some v0 =>
          by_cases hd : condDeleteOk store v0 = true <;>
            cases ht <;>
            simp [Lease.release, Lease.cancelHeartbeat, hd]

/-- C7 (witness). -/
theorem release_idempotent_witness :
    ((heldLease.release (some otherRec) false).lease.release
        (heldLease.release (some otherRec) false).store false).lease
      = (heldLease.release (some otherRec) false).lease
    ∧ ((heldLease.release (some otherRec) false).lease.release
        (heldLease.release (some otherRec) false).store false).result
      = Except.ok () := by
  have h := release_idempotent heldLease (some otherRec)
  exact ⟨h.1, h.2.2.1⟩

/-- C4 (counterexample). The claim says that after every operation,
`isAcquired = false` implies no believed-held version remains on the handle.
Releasing a held handle whose record was stolen (conditional delete
conflicts, swallowed) leaves `isAcquired = false` while `version` still
holds the old token `"v1"`. -/
theorem release_conflict_keeps_version :
    (heldLease.release (some otherRec) false).lease.isAcquired = false
      ∧ (heldLease.release (some otherRec) false).lease.version = some "v1"
      ∧ (heldLease.release (some otherRec) false).lease.version ≠ none
      ∧ (heldLease.release (some otherRec) false).result = Except.ok () := by
  refine ⟨rfl, rfl, ?_, rfl⟩
  decide

/-- C4 (amended). The handle-state consistency invariant holds for the
conditional writes and for the clean release paths, but not after a release
whose delete was not a clean success: a successful `upsertLease` (initial
acquisition or heartbeat renewal) leaves `isAcquired = true` with `version`
holding the token it just wrote, and any failed `upsertLease` clears both;
a heartbeat firing preserves the equivalence; fault-free `release` always
clears `isAcquired` and clears `version` when no version was held or the
conditional delete succeeded — but when the delete conflicts, the stale
token remains on the handle while `isAcquired` is false. -/
theorem handle_state_consistency (l : Lease) (store : Option LeaseRecord) (nowMs : Nat)
    (ownerId newVersion : String) (existingVersion : Option String) (fault : Bool) :
    (((l.upsertLease store nowMs ownerId newVersion existingVersion fault).result
          = Except.ok true →
        (l.upsertLease store nowMs ownerId newVersion existingVersion fault).lease.isAcquired
            = true
          ∧ (l.upsertLease store nowMs ownerId newVersion existingVersion fault).lease.version
            = some newVersion)
      ∧ ((l.upsertLease store nowMs ownerId newVersion existingVersion fault).result
          ≠ Except.ok true →
        (l.upsertLease store nowMs ownerId newVersion existingVersion fault).lease.isAcquired
            = false
          ∧ (l.upsertLease store nowMs ownerId newVersion existingVersion fault).lease.version
            = none))
    ∧ (((l.heartbeatFire store nowMs ownerId newVersion fault).lease.isAcquired = true →
        (l.heartbeatFire store nowMs ownerId newVersion fault).lease.version = some newVersion)
      ∧ ((l.heartbeatFire store nowMs ownerId newVersion fault).lease.isAcquired = false →
        (l.heartbeatFire store nowMs ownerId newVersion fault).lease.version = none))
    ∧ ((l.release store false).lease.isAcquired = false
      ∧ (l.version = none → (l.release store false).lease.version = none)
      ∧ (∀ v, l.version = some v → condDeleteOk store v = true →
          (l.release store false).lease.version = none)
      ∧ (∀ v, l.version = some v → condDeleteOk store v = false →
          (l.release store false).lease.version = some v)) := by
  refine ⟨?_, ?_, ?_⟩
  · cases fault <;>
      by_cases hc : condUpdateOk store (match existingVersion with
        | some v => some v
        | none => l.version) = true <;>
      simp [Lease.upsertLease, hc]
  · cases fault with
    | false =>
        by_cases hc : condUpdateOk store l.version = true
        · simp only [Lease.heartbeatFire, Lease.upsertLease, Lease.scheduleHeartbeat, hc]
          cases hh : l.heartbeatMs <;> simp [hh]
        · simp [Lease.heartbeatFire, Lease.upsertLease, Lease.scheduleHeartbeat, hc]
    | true => simp [Lease.heartbeatFire, Lease.upsertLease]
  · cases l with
    | mk lid d hb mrc acq ver ht tp =>
        cases ver with
        | none => cases ht <;> simp [Lease.release, Lease.cancelHeartbeat]
        | some v0 =>
            by_cases hd : condDeleteOk store v0 = true <;>
              cases ht <;>
              simp [Lease.release, Lease.cancelHeartbeat, hd]

/-- C4 (witness). -/
theorem handle_state_consistency_witness :
    (heldLease.release (some otherRec) false).lease.isAcquired = false
      ∧ (heldLease.release (some otherRec) false).lease.version = some "v1" := by
  have h := handle_state_consistency heldLease (some otherRec) 0 "o" "n" none false
  exact ⟨h.2.2.1, h.2.2.2.2.2 "v1" rfl (by decide)⟩

/-- C8. When a heartbeat renewal's conditional write loses a version race,
the handle transitions to not-acquired, the renewal timer is left
unscheduled, and no error is raised — the callback completes normally with
the store untouched; when it wins, the stored version rotates to the fresh
token (different from the previous one), the record now carries that token,
and the timer is rescheduled. -/
theorem heartbeat_conflict_and_success (l : Lease) (store : Option LeaseRecord)
    (nowMs : Nat) (ownerId newVersion : String) :
    (condUpdateOk store l.version = false →
        (l.heartbeatFire store nowMs ownerId newVersion false).lease.isAcquired = false
      ∧ (l.heartbeatFire store nowMs ownerId newVersion false).lease.timerPending = false
      ∧ (l.heartbeatFire store nowMs ownerId newVersion false).result = Except.ok ()
      ∧ (l.heartbeatFire store nowMs ownerId newVersion false).store = store)
    ∧ (condUpdateOk store l.version = true → l.heartbeatMs.isSome = true →
        some newVersion ≠ l.version →
        (l.heartbeatFire store nowMs ownerId newVersion false).lease.version = some newVersion
      ∧ (l.heartbeatFire store nowMs ownerId newVersion false).lease.version ≠ l.version
      ∧ (l.heartbeatFire store nowMs ownerId newVersion false).lease.isAcquired = true
      ∧ (l.heartbeatFire store nowMs ownerId newVersion false).lease.timerPending = true
      ∧ (l.heartbeatFire store nowMs ownerId newVersion false).result = Except.ok ()
      ∧ ∃ rec, (l.heartbeatFire store nowMs ownerId newVersion false).store = some rec
          ∧ rec.version = newVersion) := by
  constructor
  · intro hc
    simp [Lease.heartbeatFire, Lease.upsertLease, hc]
  · intro hc hhb hfresh
    cases hh : l.heartbeatMs with
    | none => rw [hh] at hhb; simp at hhb
    | some hbMs =>
        simp only [Lease.heartbeatFire, Lease.upsertLease, Lease.scheduleHeartbeat]
        simp [hc, hh, hfresh]

/-- A record carrying the same version the handle last wrote, as the store
looks while our holder is still the owner. -/
def ownRec : LeaseRecord :=
  { ownerId := "owner-1", durationMs := 500, version := "v1", expiresAt := 99 }

/-- C8 (witness). -/
theorem heartbeat_conflict_and_success_witness :
    ((heldLeaseHB.heartbeatFire (some otherRec) 0 "owner-1" "v3" false).lease.isAcquired
        = false
      ∧ (heldLeaseHB.heartbeatFire (some otherRec) 0 "owner-1" "v3" false).lease.timerPending
        = false
      ∧ (heldLeaseHB.heartbeatFire (some otherRec) 0 "owner-1" "v3" false).result
        = Except.ok ())
    ∧ ((heldLeaseHB.heartbeatFire (some ownRec) 0 "owner-1" "v3" false).lease.version
        = some "v3"
      ∧ (heldLeaseHB.heartbeatFire (some ownRec) 0 "owner-1" "v3" false).lease.timerPending
        = true) := by
  have hconf := (heartbeat_conflict_and_success heldLeaseHB (some otherRec) 0 "owner-1" "v3").1
    (by decide)
  have hsucc := (heartbeat_conflict_and_success heldLeaseHB (some ownRec) 0 "owner-1" "v3").2
    (by decide) (by decide) (by decide)
  exact ⟨⟨hconf.1, hconf.2.1, hconf.2.2.1⟩, ⟨hsucc.1, hsucc.2.2.2.1⟩⟩

lemma oldVersion_of_fetch (l : Lease) (hv : l.version = none)
    (s : Option LeaseRecord) (t : Nat) :
    (match (l.fetchLease s t).map (fun it => it.version) with
      | some v => some v
      | none => l.version) = fetchedVersion s t := by
  rw [fetchLease_version]
  cases h : fetchedVersion s t with
  | some v => rfl
  | none => exact hv

lemma scheduleHeartbeat_isAcquired (l : Lease) :
    (Lease.scheduleHeartbeat l).isAcquired = l.isAcquired := by
  unfold Lease.scheduleHeartbeat
  cases l.heartbeatMs <;> rfl

lemma scheduleHeartbeat_version (l : Lease) :
    (Lease.scheduleHeartbeat l).version = l.version := by
  unfold Lease.scheduleHeartbeat
  cases l.heartbeatMs <;> rfl

lemma upsert_conflict_eq (l : Lease) (env : AttemptEnv) (ownerId : String)
    (hv : l.version = none) (hc : attemptConflict env) :
    l.upsertLease env.writeStore env.writeNowMs ownerId env.newVersion
        ((l.fetchLease env.fetchStore env.fetchNowMs).map fun it => it.version)
        env.storeFault
      = { lease := { l with isAcquired := false, version := none }
          store := env.writeStore
          effect := Effect.condWrite (fetchedVersion env.fetchStore env.fetchNowMs)
            env.newVersion
          result := Except.ok false } := by
  obtain ⟨hf, hcond⟩ := hc
  unfold Lease.upsertLease
  rw [oldVersion_of_fetch l hv, hf]
  simp [hcond]

lemma upsert_success_eq (l : Lease) (env : AttemptEnv) (ownerId : String)
    (hv : l.version = none) (hs : attemptSucceeds env) :
    l.upsertLease env.writeStore env.writeNowMs ownerId env.newVersion
        ((l.fetchLease env.fetchStore env.fetchNowMs).map fun it => it.version)
        env.storeFault
      = { lease := { l with isAcquired := true, version := some env.newVersion }
          store := some { ownerId := ownerId
                          durationMs := l.leaseDurationMs
                          version := env.newVersion
                          expiresAt := ((env.writeNowMs : ℚ) + (l.leaseDurationMs : ℚ) * 3) / 1000 }
          effect := Effect.condWrite (fetchedVersion env.fetchStore env.fetchNowMs)
            env.newVersion
          result := Except.ok true } := by
  obtain ⟨hf, hcond⟩ := hs
  unfold Lease.upsertLease
  rw [oldVersion_of_fetch l hv, hf]
  simp [hcond]

lemma writeCount_nil : writeCount [] = 0 := rfl

lemma writeCount_attemptTrace (item : Option LeaseItem) (a : Option String) (b : String)
    (rest : List Effect) :
    writeCount (Effect.read ::
        (match item with
          | some it => [Effect.sleep it.durationMs]
          | none => []) ++ [Effect.condWrite a b] ++ rest)
      = 1 + writeCount rest := by
  cases item <;> simp [writeCount, List.countP_cons, List.countP_append, isCondWrite] <;>
    omega

lemma acquireAttempts_all_conflict (ownerId : String) (envs : Nat → AttemptEnv) :
    ∀ (n i : Nat) (l : Lease), l.version = none →
      (∀ j, j < n → attemptConflict (envs (i + j))) →
      (Lease.acquireAttempts ownerId envs n i l).result
          = Except.error (Thrown.leaseNotGranted (exhaustedMsg l))
        ∧ writeCount (Lease.acquireAttempts ownerId envs n i l).effects = n := by
  intro n
  induction n with
  | zero =>
      intro i l hv _
      exact ⟨rfl, rfl⟩
  | succ n ih =>
      intro i l hv hc
      have hc0 : attemptConflict (envs i) := by
        have h := hc 0 (Nat.succ_pos n)
        simpa using h
      have hstep := upsert_conflict_eq l (envs i) ownerId hv hc0
      have hrec := ih (i + 1) { l with isAcquired := false, version := none } rfl
        (fun j hj => by
          have h := hc (j + 1) (Nat.succ_lt_succ hj)
          have he : i + 1 + j = i + (j + 1) := by omega
          rw [he]
          exact h)
      simp only [Lease.acquireAttempts, hstep]
      have h2 := hrec.2
      simp only [writeCount] at h2
      rcases hfi : l.fetchLease (envs i).fetchStore (envs i).fetchNowMs with _ | it <;>
        simp only [hfi] <;>
        exact ⟨hrec.1,
          by simp [writeCount, List.countP_cons, List.countP_append, isCondWrite]; omega⟩

lemma isCondWrite_read : isCondWrite Effect.read = false := rfl

lemma isCondWrite_sleep (ms : Nat) : isCondWrite (Effect.sleep ms) = false := rfl

lemma upsert_effect_shape (l : Lease) (store : Option LeaseRecord) (nowMs : Nat)
    (ownerId newVersion : String) (ev : Option String) (f : Bool) :
    isCondWrite (l.upsertLease store nowMs ownerId newVersion ev f).effect = true := by
  simp only [Lease.upsertLease]
  split_ifs <;> rfl

lemma acquireAttempts_writeCount_le (ownerId : String) (envs : Nat → AttemptEnv) :
    ∀ (n i : Nat) (l : Lease),
      writeCount (Lease.acquireAttempts ownerId envs n i l).effects ≤ n := by
  intro n
  induction n with
  | zero => intro i l; exact Nat.le_refl 0
  | succ n ih =>
      intro i l
      have heff := upsert_effect_shape l (envs i).writeStore (envs i).writeNowMs ownerId
        (envs i).newVersion
        ((l.fetchLease (envs i).fetchStore (envs i).fetchNowMs).map fun it => it.version)
        (envs i).storeFault
      have hib := ih (i + 1) (l.upsertLease (envs i).writeStore (envs i).writeNowMs
        ownerId (envs i).newVersion
        ((l.fetchLease (envs i).fetchStore (envs i).fetchNowMs).map fun it => it.version)
        (envs i).storeFault).lease
      simp only [writeCount] at hib
      simp only [Lease.acquireAttempts]
      rcases hur : (l.upsertLease (envs i).writeStore (envs i).writeNowMs ownerId
          (envs i).newVersion
          ((l.fetchLease (envs i).fetchStore (envs i).fetchNowMs).map fun it => it.version)
          (envs i).storeFault).result with u | b
      · simp only [hur]
        rcases hfi : l.fetchLease (envs i).fetchStore (envs i).fetchNowMs with _ | it <;>
          simp only [hfi, Option.map_none', Option.map_some'] at heff ⊢ <;>
          simp [writeCount, List.countP_cons, List.countP_append, heff,
            isCondWrite_read, isCondWrite_sleep]
      · cases b with
        | true =>
            simp only [hur]
            rcases hfi : l.fetchLease (envs i).fetchStore (envs i).fetchNowMs with _ | it <;>
              simp only [hfi, Option.map_none', Option.map_some'] at heff ⊢ <;>
              simp [writeCount, List.countP_cons, List.countP_append, heff,
                isCondWrite_read, isCondWrite_sleep]
        | false =>
            simp only [hur]
            rcases hfi : l.fetchLease (envs i).fetchStore (envs i).fetchNowMs with _ | it <;>
              simp only [hfi, Option.map_none', Option.map_some'] at heff hib ⊢ <;>
              simp [writeCount, List.countP_cons, List.countP_append, heff,
                isCondWrite_read, isCondWrite_sleep] <;>
              omega

lemma acquireAttempts_first_success (ownerId : String) (envs : Nat → AttemptEnv) :
    ∀ (k n i : Nat) (l : Lease), l.version = none → k < n →
      (∀ j, j < k → attemptConflict (envs (i + j))) →
      attemptSucceeds (envs (i + k)) →
      (Lease.acquireAttempts ownerId envs n i l).result = Except.ok ()
        ∧ (Lease.acquireAttempts ownerId envs n i l).lease.isAcquired = true
        ∧ (Lease.acquireAttempts ownerId envs n i l).lease.version
            = some (envs (i + k)).newVersion
        ∧ writeCount (Lease.acquireAttempts ownerId envs n i l).effects = k + 1
        ∧ (Lease.acquireAttempts ownerId envs n i l).written
            = some { ownerId := ownerId
                     durationMs := l.leaseDurationMs
                     version := (envs (i + k)).newVersion
                     expiresAt := (((envs (i + k)).writeNowMs : ℚ)
                       + (l.leaseDurationMs : ℚ) * 3) / 1000 } := by
  intro k
  induction k with
  | zero =>
      intro n i l hv hn _ hs
      cases n with
      | zero => omega
      | succ m =>
          have hs0 : attemptSucceeds (envs i) := by simpa using hs
          have hstep := upsert_success_eq l (envs i) ownerId hv hs0
          simp only [Lease.acquireAttempts, hstep]
          rcases hfi : l.fetchLease (envs i).fetchStore (envs i).fetchNowMs with _ | it <;>
            simp only [hfi] <;>
            refine ⟨by trivial, ?_, ?_, ?_, by simp⟩ <;>
            simp [scheduleHeartbeat_isAcquired, scheduleHeartbeat_version, writeCount,
              List.countP_cons, List.countP_append, isCondWrite]
  | succ k ihk =>
      intro n i l hv hn hc hs
      cases n with
      | zero => omega
      | succ m =>
          have hc0 : attemptConflict (envs i) := by
            simpa using hc 0 (Nat.succ_pos k)
          have hstep := upsert_conflict_eq l (envs i) ownerId hv hc0
          have he : i + 1 + k = i + (k + 1) := by omega
          have hrec := ihk m (i + 1) { l with isAcquired := false, version := none } rfl
            (by omega)
            (fun j hj => by
              have h := hc (j + 1) (Nat.succ_lt_succ hj)
              have he2 : i + 1 + j = i + (j + 1) := by omega
              rw [he2]; exact h)
            (by rw [he]; exact hs)
          rw [he] at hrec
          have h2 := hrec.2.2.2.1
          simp only [writeCount] at h2
          simp only [Lease.acquireAttempts, hstep]
          rcases hfi : l.fetchLease (envs i).fetchStore (envs i).fetchNowMs with _ | it <;>
            simp only [hfi] <;>
            exact ⟨hrec.1, hrec.2.1, hrec.2.2.1,
              by simp [writeCount, List.countP_cons, List.countP_append, isCondWrite,
                isCondWrite_read, isCondWrite_sleep]; omega,
              hrec.2.2.2.2⟩

/-- C5. With the handle not yet acquired and holding no version: the retry
loop issues at most `maxRetryCount` conditional writes; if the first `k`
attempts conflict and attempt `k` (0-based, `k < maxRetryCount`) wins its
conditional write, `acquire` returns successfully right there — the handle
is marked held with the fresh version of that attempt and exactly `k + 1`
conditional writes were issued; and if all `maxRetryCount` attempts
conflict, it throws `LeaseNotGrantedError` naming the key and the attempt
count, after exactly `maxRetryCount` conditional writes. -/
theorem acquire_retry_budget (l : Lease) (ownerId : String) (envs : Nat → AttemptEnv)
    (h0 : l.isAcquired = false) (hv : l.version = none) (_h1 : 1 ≤ l.maxRetryCount) :
    writeCount (l.acquire ownerId envs).effects ≤ l.maxRetryCount
      ∧ (∀ k, k < l.maxRetryCount →
          (∀ j, j < k → attemptConflict (envs j)) →
          attemptSucceeds (envs k) →
          (l.acquire ownerId envs).result = Except.ok ()
            ∧ (l.acquire ownerId envs).lease.isAcquired = true
            ∧ (l.acquire ownerId envs).lease.version = some (envs k).newVersion
            ∧ writeCount (l.acquire ownerId envs).effects = k + 1)
      ∧ ((∀ j, j < l.maxRetryCount → attemptConflict (envs j)) →
          (l.acquire ownerId envs).result
              = Except.error (Thrown.leaseNotGranted
                  (l.leaseId ++ " could not be acquired after "
                    ++ toString l.maxRetryCount ++ " attempts"))
            ∧ writeCount (l.acquire ownerId envs).effects = l.maxRetryCount) := by
  have hacq : l.acquire ownerId envs
      = Lease.acquireAttempts ownerId envs l.maxRetryCount 0 l := by
    simp [Lease.acquire, h0]
  rw [hacq]
  refine ⟨acquireAttempts_writeCount_le ownerId envs l.maxRetryCount 0 l, ?_, ?_⟩
  · intro k hk hc hs
    have h := acquireAttempts_first_success ownerId envs k l.maxRetryCount 0 l hv hk
      (fun j hj => by simpa using hc j hj) (by simpa using hs)
    simp only [Nat.zero_add] at h
    exact ⟨h.1, h.2.1, h.2.2.1, h.2.2.2.1⟩
  · intro hc
    have h := acquireAttempts_all_conflict ownerId envs l.maxRetryCount 0 l hv
      (fun j hj => by simpa using hc j hj)
    exact ⟨h.1, h.2⟩

/-- An environment whose conditional write always conflicts: the read sees
nothing (empty cell at read time) while the write finds a foreign row. -/
def envConflictC : AttemptEnv :=
  { fetchStore := none
    fetchNowMs := 0
    writeStore := some otherRec
    writeNowMs := 0
    newVersion := "nc"
    storeFault := false }

/-- C5 (witness). -/
theorem acquire_retry_budget_witness :
    ((Lease.new "w5" 100 none (some 2)).acquire "o" (fun _ => envConflictC)).result
        = Except.error (Thrown.leaseNotGranted "w5 could not be acquired after 2 attempts")
      ∧ ((Lease.new "w5" 100 none (some 2)).acquire "o" (fun _ => envA)).result
        = Except.ok ()
      ∧ writeCount ((Lease.new "w5" 100 none (some 2)).acquire "o" (fun _ => envA)).effects
        = 1 := by
  have hfail := (acquire_retry_budget (Lease.new "w5" 100 none (some 2)) "o"
    (fun _ => envConflictC) rfl rfl (by decide)).2.2 (fun j _ => ⟨rfl, rfl⟩)
  have hsucc := (acquire_retry_budget (Lease.new "w5" 100 none (some 2)) "o"
    (fun _ => envA) rfl rfl (by decide)).2.1 0 (by decide)
    (fun j hj => absurd hj (Nat.not_lt_zero j)) ⟨rfl, rfl⟩
  refine ⟨?_, hsucc.1, hsucc.2.2.2⟩
  rw [hfail.1]
  rfl

lemma upsert_ok_true_store (l : Lease) (store : Option LeaseRecord) (nowMs : Nat)
    (ownerId newVersion : String) (ev : Option String) (f : Bool) :
    (l.upsertLease store nowMs ownerId newVersion ev f).result = Except.ok true →
    (l.upsertLease store nowMs ownerId newVersion ev f).store
      = some { ownerId := ownerId
               durationMs := l.leaseDurationMs
               version := newVersion
               expiresAt := ((nowMs : ℚ) + (l.leaseDurationMs : ℚ) * 3) / 1000 } := by
  simp only [Lease.upsertLease]
  split_ifs <;> simp

lemma upsert_lease_duration (l : Lease) (store : Option LeaseRecord) (nowMs : Nat)
    (ownerId newVersion : String) (ev : Option String) (f : Bool) :
    (l.upsertLease store nowMs ownerId newVersion ev f).lease.leaseDurationMs
      = l.leaseDurationMs := by
  simp only [Lease.upsertLease]
  split_ifs <;> rfl

lemma acquireAttempts_written_expiry (ownerId : String) (envs : Nat → AttemptEnv) :
    ∀ (n i : Nat) (l : Lease) (rec : LeaseRecord),
      (Lease.acquireAttempts ownerId envs n i l).written = some rec →
      ∃ j, i ≤ j ∧ j < i + n
        ∧ rec.ownerId = ownerId
        ∧ rec.durationMs = l.leaseDurationMs
        ∧ rec.version = (envs j).newVersion
        ∧ rec.expiresAt
            = (((envs j).writeNowMs : ℚ) + (l.leaseDurationMs : ℚ) * 3) / 1000 := by
  intro n
  induction n with
  | zero =>
      intro i l rec h
      simp [Lease.acquireAttempts] at h
  | succ n ih =>
      intro i l rec h
      have hst := upsert_ok_true_store l (envs i).writeStore (envs i).writeNowMs ownerId
        (envs i).newVersion
        ((l.fetchLease (envs i).fetchStore (envs i).fetchNowMs).map fun it => it.version)
        (envs i).storeFault
      simp only [Lease.acquireAttempts] at h
      rcases hur : (l.upsertLease (envs i).writeStore (envs i).writeNowMs ownerId
          (envs i).newVersion
          ((l.fetchLease (envs i).fetchStore (envs i).fetchNowMs).map fun it => it.version)
          (envs i).storeFault).result with u | b
      · rw [hur] at h
        simp at h
      · cases b with
        | true =>
            rw [hur] at h
            simp only [] at h
            rw [hst hur] at h
            refine ⟨i, Nat.le_refl i, by omega, ?_⟩
            have hrec : rec = { ownerId := ownerId
                                durationMs := l.leaseDurationMs
                                version := (envs i).newVersion
                                expiresAt := (((envs i).writeNowMs : ℚ)
                                  + (l.leaseDurationMs : ℚ) * 3) / 1000 } := by
              exact (Option.some_inj.mp h).symm
            rw [hrec]
            exact ⟨rfl, rfl, rfl, rfl⟩
        | false =>
            rw [hur] at h
            simp only [] at h
            obtain ⟨j, hj1, hj2, hrest⟩ := ih (i + 1)
              (l.upsertLease (envs i).writeStore (envs i).writeNowMs ownerId
                (envs i).newVersion
                ((l.fetchLease (envs i).fetchStore (envs i).fetchNowMs).map
                  fun it => it.version)
                (envs i).storeFault).lease rec h
            rw [upsert_lease_duration] at hrest
            exact ⟨j, by omega, by omega, hrest⟩

/-- C9. Every successful conditional write performed by the core stores an
expiry equal to the write-time clock plus exactly three times the lease's
`durationMs`, converted to epoch seconds by the division by 1000: any record
deposited by `acquire` carries `expiresAt = (writeNow + 3 × durationMs) / 1000`
for the clock of the attempt that won, and a winning heartbeat renewal
rewrites the record with `expiresAt = (now + 3 × durationMs) / 1000`. -/
theorem conditional_write_expiry (l : Lease) (ownerId : String)
    (envs : Nat → AttemptEnv) (store : Option LeaseRecord) (nowMs : Nat)
    (nv : String) (rec : LeaseRecord) :
    ((l.acquire ownerId envs).written = some rec →
      ∃ j, rec.durationMs = l.leaseDurationMs
        ∧ rec.expiresAt
            = (((envs j).writeNowMs : ℚ) + 3 * (l.leaseDurationMs : ℚ)) / 1000)
    ∧ (condUpdateOk store l.version = true →
      ∃ rec2, (l.heartbeatFire store nowMs ownerId nv false).store = some rec2
        ∧ rec2.durationMs = l.leaseDurationMs
        ∧ rec2.expiresAt = ((nowMs : ℚ) + 3 * (l.leaseDurationMs : ℚ)) / 1000) := by
  constructor
  · intro h
    by_cases ha : l.isAcquired = true
    · simp [Lease.acquire, ha] at h
    · have ha' : l.isAcquired = false := by
        cases hb : l.isAcquired
        · rfl
        · exact absurd hb ha
      rw [show l.acquire ownerId envs
          = Lease.acquireAttempts ownerId envs l.maxRetryCount 0 l by
        simp [Lease.acquire, ha']] at h
      obtain ⟨j, _, _, _, hd, _, he⟩ :=
        acquireAttempts_written_expiry ownerId envs l.maxRetryCount 0 l rec h
      exact ⟨j, hd, by rw [he]; ring_nf⟩
  · intro hc
    refine ⟨{ ownerId := ownerId
              durationMs := l.leaseDurationMs
              version := nv
              expiresAt := ((nowMs : ℚ) + (l.leaseDurationMs : ℚ) * 3) / 1000 },
      ?_, rfl, by ring⟩
    simp only [Lease.heartbeatFire, Lease.upsertLease]
    simp [hc]

/-- The record deposited by a first-attempt success of `acquire` on a fresh
key with clock 0 and duration 100. -/
def recW : LeaseRecord :=
  { ownerId := "o"
    durationMs := 100
    version := "nv"
    expiresAt := (((0 : Nat) : ℚ) + ((100 : Nat) : ℚ) * 3) / 1000 }

/-- C9 (witness). -/
theorem conditional_write_expiry_witness :
    (∃ _j : Nat, recW.durationMs = (Lease.new "w9" 100 none (some 1)).leaseDurationMs
      ∧ recW.expiresAt
          = ((envA.writeNowMs : ℚ)
            + 3 * ((Lease.new "w9" 100 none (some 1)).leaseDurationMs : ℚ)) / 1000)
    ∧ (∃ rec2,
        (heldLease.heartbeatFire (some ownRec) 5000 "owner-1" "v3" false).store = some rec2
          ∧ rec2.durationMs = heldLease.leaseDurationMs
          ∧ rec2.expiresAt = (((5000 : Nat) : ℚ) + 3 * (heldLease.leaseDurationMs : ℚ)) / 1000) := by
  exact ⟨(conditional_write_expiry (Lease.new "w9" 100 none (some 1)) "o" (fun _ => envA)
      none 0 "x" recW).1 rfl,
    (conditional_write_expiry heldLease "owner-1" (fun _ => envA) (some ownRec) 5000 "v3"
      recW).2 rfl⟩

/-- A record whose TTL has already lapsed (expiresAt = 5 epoch seconds)
but whose physical row is still present (not yet reaped). -/
def expiredRec : LeaseRecord :=
  { ownerId := "prev", durationMs := 100, version := "v1", expiresAt := 5 }

/-- The environment of an acquisition attempt made at epoch second 10
against the expired-but-unreaped row. -/
def envExpired : AttemptEnv :=
  { fetchStore := some expiredRec
    fetchNowMs := 10000
    writeStore := some expiredRec
    writeNowMs := 10000
    newVersion := "v2"
    storeFault := false }

/-- C2 (counterexample). The claim says that when the stored record's
`expiresAt` has already passed but the row is unreaped, the conditional
write uses that record's last known version as its precondition, letting the
new acquirer steal it. On the code, `fetchLease` filters the expired row out
(`expiresAt 5 > now 10` is false), so the attempt's conditional write
carries no expected version — its precondition is `attribute_not_exists` —
and it conflicts against the still-present row: with a budget of 1 the
acquisition fails and nothing is written. -/
theorem expired_at_read_is_not_stolen :
    ((Lease.new "k2" 100 none (some 1)).acquire "me" fun _ => envExpired).result
        = Except.error (Thrown.leaseNotGranted "k2 could not be acquired after 1 attempts")
      ∧ ((Lease.new "k2" 100 none (some 1)).acquire "me" fun _ => envExpired).effects
        = [Effect.read, Effect.condWrite none "v2"]
      ∧ ((Lease.new "k2" 100 none (some 1)).acquire "me" fun _ => envExpired).written
        = none := by
  have hcmp : ¬ ((10000 : ℚ) / 1000 < 5) := by norm_num
  have hacq : (Lease.new "k2" 100 none (some 1)).acquire "me" (fun _ => envExpired)
      = Lease.acquireAttempts "me" (fun _ => envExpired) 1 0
          (Lease.new "k2" 100 none (some 1)) := rfl
  rw [hacq]
  simp only [Lease.acquireAttempts, Lease.upsertLease, Lease.fetchLease, Lease.new,
    envExpired, expiredRec, exhaustedMsg, condUpdateOk]
  simp [hcmp]
  rfl

/-- C2 (amended). The steal-by-version happens only when the consistent
read observes a live record: if the row is live at the read (its
`expiresAt` is still in the future there) and is unchanged at the write —
even when its `expiresAt` has passed by write time, i.e. the record is
expired but not yet reaped — then the conditional write uses the fetched
record's version as its expected-version precondition and succeeds,
overwriting (stealing) the record; a record already expired at the read is
instead treated as absent, and the write then demands the row not exist at
all (see the counterexample). -/
theorem steal_uses_version_from_live_read (l : Lease) (r : LeaseRecord)
    (ownerId : String) (envs : Nat → AttemptEnv)
    (h0 : l.isAcquired = false) (hv : l.version = none) (hm : 0 < l.maxRetryCount)
    (hfs : (envs 0).fetchStore = some r)
    (hlive : r.expiresAt > (((envs 0).fetchNowMs : ℚ)) / 1000)
    (hws : (envs 0).writeStore = some r)
    (_hexp : r.expiresAt ≤ (((envs 0).writeNowMs : ℚ)) / 1000)
    (hnf : (envs 0).storeFault = false) :
    (l.acquire ownerId envs).result = Except.ok ()
      ∧ (l.acquire ownerId envs).lease.isAcquired = true
      ∧ (l.acquire ownerId envs).lease.version = some (envs 0).newVersion
      ∧ (l.acquire ownerId envs).effects
          = [Effect.read, Effect.sleep r.durationMs,
             Effect.condWrite (some r.version) (envs 0).newVersion]
      ∧ ∃ rec, (l.acquire ownerId envs).written = some rec
          ∧ rec.ownerId = ownerId
          ∧ rec.version = (envs 0).newVersion := by
  have hfv : fetchedVersion (envs 0).fetchStore (envs 0).fetchNowMs = some r.version := by
    simp [fetchedVersion, hfs, hlive]
  have hsucc : attemptSucceeds (envs 0) := by
    refine ⟨hnf, ?_⟩
    simp [hfv, hws, condUpdateOk]
  have hstep := upsert_success_eq l (envs 0) ownerId hv hsucc
  have hfi : l.fetchLease (envs 0).fetchStore (envs 0).fetchNowMs
      = some { leaseId := l.leaseId
               ownerId := r.ownerId
               durationMs := r.durationMs
               version := r.version } := by
    simp [Lease.fetchLease, hfs, hlive]
  obtain ⟨m, hm'⟩ : ∃ m, l.maxRetryCount = m + 1 :=
    ⟨l.maxRetryCount - 1, by omega⟩
  have hacq : l.acquire ownerId envs
      = Lease.acquireAttempts ownerId envs l.maxRetryCount 0 l := by
    simp [Lease.acquire, h0]
  rw [hacq, hm']
  simp only [Lease.acquireAttempts]
  simp only [hstep]
  simp only [hfi, hfv]
  refine ⟨by trivial, by rw [scheduleHeartbeat_isAcquired], by rw [scheduleHeartbeat_version],
    by simp, ⟨_, by trivial, rfl, rfl⟩⟩

/-- A record still live at epoch second 4 (read time) whose TTL lapses
before the write at epoch second 6. -/
def liveRec : LeaseRecord :=
  { ownerId := "prev", durationMs := 100, version := "v1", expiresAt := 5 }

/-- The environment of an attempt that reads the live row at second 4,
sleeps through its expiry, and writes at second 6 with the row unreaped. -/
def envLiveThenExpired : AttemptEnv :=
  { fetchStore := some liveRec
    fetchNowMs := 4000
    writeStore := some liveRec
    writeNowMs := 6000
    newVersion := "v2"
    storeFault := false }

/-- C2 (witness). -/
theorem steal_uses_version_from_live_read_witness :
    ((Lease.new "k2w" 100 none (some 1)).acquire "me" fun _ => envLiveThenExpired).result
        = Except.ok ()
      ∧ ((Lease.new "k2w" 100 none (some 1)).acquire "me"
          fun _ => envLiveThenExpired).effects
        = [Effect.read, Effect.sleep 100, Effect.condWrite (some "v1") "v2"]
      ∧ ((Lease.new "k2w" 100 none (some 1)).acquire "me"
          fun _ => envLiveThenExpired).lease.version = some "v2" := by
  have h := steal_uses_version_from_live_read (Lease.new "k2w" 100 none (some 1)) liveRec
    "me" (fun _ => envLiveThenExpired) rfl rfl (by decide) rfl
    (by norm_num [liveRec, envLiveThenExpired]) rfl
    (by norm_num [liveRec, envLiveThenExpired]) rfl
  exact ⟨h.1, h.2.2.2.1, h.2.2.1⟩

lemma upsert_ok_true_lease (l : Lease) (store : Option LeaseRecord) (nowMs : Nat)
    (ownerId newVersion : String) (ev : Option String) (f : Bool) :
    (l.upsertLease store nowMs ownerId newVersion ev f).result = Except.ok true →
    (l.upsertLease store nowMs ownerId newVersion ev f).lease.isAcquired = true
      ∧ (l.upsertLease store nowMs ownerId newVersion ev f).lease.version
        = some newVersion := by
  simp only [Lease.upsertLease]
  split_ifs <;> simp

lemma acquireAttempts_ok_shape (ownerId : String) (envs : Nat → AttemptEnv) :
    ∀ (n i : Nat) (l : Lease),
      (Lease.acquireAttempts ownerId envs n i l).result = Except.ok () →
      ∃ rec, (Lease.acquireAttempts ownerId envs n i l).written = some rec
        ∧ (Lease.acquireAttempts ownerId envs n i l).lease.version = some rec.version
        ∧ (Lease.acquireAttempts ownerId envs n i l).lease.isAcquired = true := by
  intro n
  induction n with
  | zero =>
      intro i l h
      simp [Lease.acquireAttempts] at h
  | succ n ih =>
      intro i l h
      have hls := upsert_ok_true_lease l (envs i).writeStore (envs i).writeNowMs ownerId
        (envs i).newVersion
        ((l.fetchLease (envs i).fetchStore (envs i).fetchNowMs).map fun it => it.version)
        (envs i).storeFault
      have hst := upsert_ok_true_store l (envs i).writeStore (envs i).writeNowMs ownerId
        (envs i).newVersion
        ((l.fetchLease (envs i).fetchStore (envs i).fetchNowMs).map fun it => it.version)
        (envs i).storeFault
      simp only [Lease.acquireAttempts] at h ⊢
      rcases hur : (l.upsertLease (envs i).writeStore (envs i).writeNowMs ownerId
          (envs i).newVersion
          ((l.fetchLease (envs i).fetchStore (envs i).fetchNowMs).map fun it => it.version)
          (envs i).storeFault).result with u | b
      · rw [hur] at h
        simp at h
      · cases b with
        | true =>
            simp only [hur]
            refine ⟨{ ownerId := ownerId
                      durationMs := l.leaseDurationMs
                      version := (envs i).newVersion
                      expiresAt := (((envs i).writeNowMs : ℚ)
                        + (l.leaseDurationMs : ℚ) * 3) / 1000 }, ?_, ?_, ?_⟩
            · exact hst hur
            · rw [scheduleHeartbeat_version]
              exact (hls hur).2
            · rw [scheduleHeartbeat_isAcquired]
              exact (hls hur).1
        | false =>
            rw [hur] at h
            simp only [] at h
            have hrec := ih (i + 1) (l.upsertLease (envs i).writeStore (envs i).writeNowMs
              ownerId (envs i).newVersion
              ((l.fetchLease (envs i).fetchStore (envs i).fetchNowMs).map
                fun it => it.version)
              (envs i).storeFault).lease h
            simpa only [hur] using hrec

lemma acquire_ok_shape (l : Lease) (ownerId : String) (envs : Nat → AttemptEnv)
    (h0 : l.isAcquired = false) :
    (l.acquire ownerId envs).result = Except.ok () →
    ∃ rec, (l.acquire ownerId envs).written = some rec
      ∧ (l.acquire ownerId envs).lease.version = some rec.version
      ∧ (l.acquire ownerId envs).lease.isAcquired = true := by
  have hacq : l.acquire ownerId envs
      = Lease.acquireAttempts ownerId envs l.maxRetryCount 0 l := by
    simp [Lease.acquire, h0]
  rw [hacq]
  exact acquireAttempts_ok_shape ownerId envs l.maxRetryCount 0 l

lemma release_own_record (l : Lease) (rec : LeaseRecord)
    (hv : l.version = some rec.version) :
    (l.release (some rec) false).lease.isAcquired = false
      ∧ (l.release (some rec) false).lease.version = none
      ∧ (l.release (some rec) false).store = none := by
  cases l with
  | mk lid d hb mrc acq ver ht tp =>
      cases ht <;>
        simp_all [Lease.release, Lease.cancelHeartbeat, condDeleteOk]

/-- C1 (amended). `withLeases` is all-or-nothing only in what it *grants*,
not in what it *cleans up*: the callback runs exactly when every key's
acquisition succeeded, and in that case every handle is released and every
record deleted afterwards — even when the callback throws, whose error then
propagates; but when any key's acquisition fails, the aggregate failure is
raised with **no rollback**: the handles and stored records of the keys
that did succeed are left exactly as their acquisitions left them, so those
keys remain held by the caller. -/
theorem withLeases_no_rollback (ownerId : String) (ld : Nat) (hb : Option Nat)
    (mrc : Option Nat) (envs : String → Nat → AttemptEnv) (cbThrows : Bool)
    (keys : List String) :
    ((¬ ∀ k ∈ keys, (Locker.acquireOne ownerId ld hb mrc (envs k) k).result
          = Except.ok ()) →
        (Locker.withLeases ownerId ld hb mrc envs cbThrows keys).callbackInvoked = false
          ∧ (Locker.withLeases ownerId ld hb mrc envs cbThrows keys).leases
              = (keys.map fun k => (Locker.acquireOne ownerId ld hb mrc (envs k) k).lease)
          ∧ (Locker.withLeases ownerId ld hb mrc envs cbThrows keys).stores
              = (keys.map fun k => (Locker.acquireOne ownerId ld hb mrc (envs k) k).written))
      ∧ ((∀ k ∈ keys, (Locker.acquireOne ownerId ld hb mrc (envs k) k).result
            = Except.ok ()) →
          (Locker.withLeases ownerId ld hb mrc envs cbThrows keys).callbackInvoked = true
            ∧ (∀ lz ∈ (Locker.withLeases ownerId ld hb mrc envs cbThrows keys).leases,
                lz.isAcquired = false ∧ lz.version = none)
            ∧ (∀ s ∈ (Locker.withLeases ownerId ld hb mrc envs cbThrows keys).stores,
                s = none)
            ∧ (Locker.withLeases ownerId ld hb mrc envs cbThrows keys).result
              = (if cbThrows then Except.error Thrown.callbackError else Except.ok ())) := by
  constructor
  · intro hne
    rcases hfe : (keys.map fun k =>
        Locker.acquireOne ownerId ld hb mrc (envs k) k).findSome? (fun r =>
          match r.result with
          | Except.error e => some e
          | Except.ok _ => none) with _ | e
    · exfalso
      apply hne
      intro k hk
      have hmem : Locker.acquireOne ownerId ld hb mrc (envs k) k ∈
          keys.map fun k => Locker.acquireOne ownerId ld hb mrc (envs k) k :=
        List.mem_map_of_mem _ hk
      have hnone := (List.findSome?_eq_none_iff.mp hfe) _ hmem
      rcases hr : (Locker.acquireOne ownerId ld hb mrc (envs k) k).result with e | u
      · rw [hr] at hnone
        simp at hnone
      · cases u
        rfl
    · simp only [Locker.withLeases, hfe]
      refine ⟨by trivial, ?_, ?_⟩ <;> simp [List.map_map, Function.comp]
  · intro hall
    have hfe : (keys.map fun k =>
        Locker.acquireOne ownerId ld hb mrc (envs k) k).findSome? (fun r =>
          match r.result with
          | Except.error e => some e
          | Except.ok _ => none) = none := by
      rw [List.findSome?_eq_none_iff]
      intro r hr
      rcases List.mem_map.mp hr with ⟨k, hk, rfl⟩
      rw [hall k hk]
    simp only [Locker.withLeases, hfe]
    refine ⟨by trivial, ?_, ?_, by trivial⟩
    · intro lz hlz
      rcases List.mem_map.mp hlz with ⟨rr, hrr, rfl⟩
      rcases List.mem_map.mp hrr with ⟨r, hr, rfl⟩
      rcases List.mem_map.mp hr with ⟨k, hk, rfl⟩
      have hok := hall k hk
      simp only [Locker.acquireOne] at hok ⊢
      obtain ⟨rec, hw, hv, _⟩ :=
        acquire_ok_shape (Lease.new k ld hb mrc) ownerId (envs k) rfl hok
      rw [hw]
      exact ⟨(release_own_record _ rec hv).1, (release_own_record _ rec hv).2.1⟩
    · intro s hs
      rcases List.mem_map.mp hs with ⟨rr, hrr, rfl⟩
      rcases List.mem_map.mp hrr with ⟨r, hr, rfl⟩
      rcases List.mem_map.mp hr with ⟨k, hk, rfl⟩
      have hok := hall k hk
      simp only [Locker.acquireOne] at hok ⊢
      obtain ⟨rec, hw, hv, _⟩ :=
        acquire_ok_shape (Lease.new k ld hb mrc) ownerId (envs k) rfl hok
      rw [hw]
      exact (release_own_record _ rec hv).2.2

/-- Per-key environments for a grouped acquisition in which key `"a"` finds
an empty cell (it succeeds at once) while every other key conflicts against
a foreign row for its whole budget. -/
def envsG : String → Nat → AttemptEnv :=
  fun k _ => if k = "a" then envA else envConflictC

/-- C1 (counterexample). The claim says a failed grouped acquisition rolls
back every lease that was successfully acquired, leaving zero keys held.
Acquiring `["a", "b"]` with a budget of 1, where `"a"` succeeds and `"b"`
conflicts: the aggregate failure is raised and the callback is not invoked,
but `"a"`'s handle still has `isAcquired = true` and `"a"`'s record is
still in the store — one of the two requested keys remains held. -/
theorem withLeases_failure_leaves_key_held :
    (Locker.withLeases "me" 100 none (some 1) envsG false ["a", "b"]).result
        = Except.error (Thrown.leaseNotGranted "b could not be acquired after 1 attempts")
      ∧ (Locker.withLeases "me" 100 none (some 1) envsG false ["a", "b"]).callbackInvoked
        = false
      ∧ ((Locker.withLeases "me" 100 none (some 1) envsG false ["a", "b"]).leases.map
          fun l => l.isAcquired) = [true, false]
      ∧ ((Locker.withLeases "me" 100 none (some 1) envsG false ["a", "b"]).stores.map
          fun s => s.isSome) = [true, false] :=
  ⟨rfl, rfl, rfl, rfl⟩

/-- C1 (witness). -/
theorem withLeases_no_rollback_witness :
    (Locker.withLeases "me" 100 none (some 1) envsG false ["a", "b"]).callbackInvoked
        = false
      ∧ (Locker.withLeases "me" 100 none (some 1) envsG false ["a", "b"]).leases
          = (["a", "b"].map fun k =>
              (Locker.acquireOne "me" 100 none (some 1) (envsG k) k).lease)
      ∧ (Locker.withLeases "me" 100 none (some 1) (fun _ _ => envA) true
          ["c"]).callbackInvoked = true
      ∧ (Locker.withLeases "me" 100 none (some 1) (fun _ _ => envA) true ["c"]).result
        = Except.error Thrown.callbackError := by
  have hbr : (Locker.acquireOne "me" 100 none (some 1) (envsG "b") "b").result
      = Except.error (Thrown.leaseNotGranted "b could not be acquired after 1 attempts") :=
    rfl
  have hne : ¬ ∀ k ∈ ["a", "b"],
      (Locker.acquireOne "me" 100 none (some 1) (envsG k) k).result = Except.ok () := by
    intro hall
    have h := hall "b" (by simp)
    rw [hbr] at h
    exact absurd h (by simp)
  have h1 := (withLeases_no_rollback "me" 100 none (some 1) envsG false ["a", "b"]).1 hne
  have hall : ∀ k ∈ ["c"],
      (Locker.acquireOne "me" 100 none (some 1) ((fun _ _ => envA) k) k).result
        = Except.ok () := by
    intro k hk
    have hkc : k = "c" := by simpa using hk
    subst hkc
    rfl
  have h2 := (withLeases_no_rollback "me" 100 none (some 1) (fun _ _ => envA) true
    ["c"]).2 hall
  exact ⟨h1.1, h1.2.1, h2.1, h2.2.2.2⟩
